import Mathlib

/-!
Verification development for the MCQ study application (`src/app.js`).

The core state of `HierarchyManager` is embedded shallowly:

* JavaScript question objects live in an `arena : List Question`; object
  identity (a reference) is an index into the arena.  `flatQuestions` and the
  question lists of chapter nodes store such indices, mirroring the fact that
  `buildHierarchy` pushes the very objects of `this.flatQuestions` into the
  tree (so both views alias the same objects).
* The insertion-ordered string-keyed JavaScript objects that form the tree
  are embedded as the mutually inductive `Node`/`NodeMap`.
* `Map`/`Set` caches are embedded as lists with last-write-wins lookup
  (`Map.set` overwrites) resp. membership.
* `Array.prototype.sort` with the comparator `() => Math.random() - 0.5`
  (in `QuizManager.start`) is embedded as a comparison-driven insertion sort
  whose comparator outcomes are drawn from an oracle `List Bool`
  (`true` = the comparator returned a non-positive number).  The sort happens
  in place in the source, which is reflected by updating `flatQuestions`
  when the sorted array is the flat list itself.
* `Math.round` on the non-negative quiz accuracy is embedded exactly on `ℚ`
  as `⌊x + 1/2⌋` (floating point is modelled by exact rational arithmetic).
-/

/-- `stats = {total, solved, correct}` of a hierarchy node. -/
structure Stats where
  total : Nat
  solved : Nat
  correct : Nat
deriving Repr, DecidableEq

/-- A question object as it appears in an ingested file.  The four taxonomy
fields are optional (`none` embeds a missing/`undefined` field). -/
structure RawQuestion where
  id : Nat
  question : String
  options : List String
  correct_option_id : Nat
  explanation : String
  term : Option String
  subject : Option String
  lesson : Option String
  chapter : Option String
deriving Repr, DecidableEq

/-- A question object after `loadMultipleFiles` decorated it with
`fileId`/`solved`/`correct`/`favorite` (the `{...q, fileId, solved, correct,
favorite}` spread in the source). -/
structure Question where
  id : Nat
  question : String
  options : List String
  correct_option_id : Nat
  explanation : String
  term : Option String
  subject : Option String
  lesson : Option String
  chapter : Option String
  fileId : String
  solved : Bool
  correct : Bool
  favorite : Bool
deriving Repr, DecidableEq

/-- A record of the `progress` store: `{questionId, fileId, correct,
selectedOption, timestamp}` (the timestamp plays no role in the core). -/
structure ProgressRecord where
  questionId : Nat
  fileId : String
  correct : Bool
  selectedOption : Option Nat
deriving Repr, DecidableEq

/-- One progress-write request emitted by `QuizManager.submit` via
`DatabaseManager.saveProgress(questionId, fileId, {correct, selectedOption})`.
`fileId` is an `Option` because `currentFiles[0]` is `undefined` when no file
is loaded. -/
structure ProgressWrite where
  questionId : Nat
  fileId : Option String
  correct : Bool
  selectedOption : Option Nat
deriving Repr, DecidableEq

/-- The raw payload of one ingested file: a bare array, a wrapper object with
a `questions` array, or any other shape (skipped by `loadMultipleFiles`). -/
inductive FileData where
  | arr (qs : List RawQuestion)
  | wrapped (qs : List RawQuestion)
  | invalid
deriving Repr, DecidableEq

/-- In-place update of one array cell (`l[n] = f(l[n])` through a reference). -/
def listModify {α : Type} : List α → Nat → (α → α) → List α
  | [], _, _ => []
  | a :: as, 0, f => f a :: as
  | a :: as, n+1, f => a :: listModify as n f

/-- JavaScript `x || d` for an optional string field: `undefined` and the
empty string are falsy and yield the default. -/
def orDefault (v : Option String) (d : String) : String :=
  match v with
  | none => d
  | some s => if s = "" then d else s

mutual
/-- A node of the term→subject→lesson→chapter tree: branch nodes carry an
insertion-ordered child map, chapter nodes carry the list of (references to)
their questions. -/
inductive Node where
  | branch (ty : String) (name : String) (children : NodeMap) (stats : Stats)
  | chapter (name : String) (questions : List Nat) (stats : Stats)

/-- An insertion-ordered string-keyed JavaScript object holding nodes
(`this.hierarchy` and every `children` object). -/
inductive NodeMap where
  | nil
  | cons (key : String) (n : Node) (rest : NodeMap)
end

/-- Property lookup `m[key]` on a node object. -/
def alookup : NodeMap → String → Option Node
  | .nil, _ => none
  | .cons k n rest, key => if k = key then some n else alookup rest key

/-- `if (!m[k]) m[k] = dflt; <mutate m[k] by f>`: modify the node at `k` in
place (keeping its position), appending a fresh default first when absent. -/
def modifyAt (k : String) (dflt : Node) (f : Node → Node) : NodeMap → NodeMap
  | .nil => .cons k (f dflt) .nil
  | .cons k' n rest =>
      if k' = k then .cons k' (f n) rest else .cons k' n (modifyAt k dflt f rest)

/-- Mutate the `children` object of a branch node (never reached on a chapter
node in the source, where it would be a type error; embedded as the
identity there). -/
def withChildren (f : NodeMap → NodeMap) : Node → Node
  | .branch ty name cs s => .branch ty name (f cs) s
  | .chapter name qs s => .chapter name qs s

/-- `node.questions.push(q)` on a chapter node (identity on a branch node,
which is never reached in the source). -/
def pushChapter (i : Nat) : Node → Node
  | .chapter name qs s => .chapter name (qs ++ [i]) s
  | .branch ty name cs s => .branch ty name cs s

def nodeStats : Node → Stats
  | .branch _ _ _ s => s
  | .chapter _ _ s => s

/-- Element-wise sum of the children's stats (the `+=` accumulation of
`calculateStats` over `Object.values(node.children)`). -/
def sumStats : NodeMap → Stats
  | .nil => ⟨0, 0, 0⟩
  | .cons _ n rest =>
      let s := sumStats rest
      ⟨(nodeStats n).total + s.total, (nodeStats n).solved + s.solved,
        (nodeStats n).correct + s.correct⟩

/-- Read a field of the question object referenced by `i` (references are
always valid in program states; out-of-range reads embed as `false`). -/
def qSolvedB (a : List Question) (i : Nat) : Bool :=
  match a.get? i with
  | some q => q.solved
  | none => false

def qCorrectB (a : List Question) (i : Nat) : Bool :=
  match a.get? i with
  | some q => q.correct
  | none => false

def qFavoriteB (a : List Question) (i : Nat) : Bool :=
  match a.get? i with
  | some q => q.favorite
  | none => false

/-- `q.id === questionId` read through reference `i`. -/
def refHasId (a : List Question) (qid : Nat) (i : Nat) : Bool :=
  match a.get? i with
  | some q => q.id == qid
  | none => false

/-- A chapter's stats as computed by `calculateStats`: counts over its
question list. -/
def chapterCounts (a : List Question) (qs : List Nat) : Stats :=
  ⟨qs.length, (qs.filter (qSolvedB a)).length, (qs.filter (qCorrectB a)).length⟩

mutual
/-- `calcNodeStats` of `HierarchyManager.calculateStats`: post-order recompute
of every node's stats. -/
def calcNode (a : List Question) : Node → Node
  | .chapter name qs _ => .chapter name qs (chapterCounts a qs)
  | .branch ty name cs _ =>
      let cs' := calcChildren a cs
      .branch ty name cs' (sumStats cs')

def calcChildren (a : List Question) : NodeMap → NodeMap
  | .nil => .nil
  | .cons k n rest => .cons k (calcNode a n) (calcChildren a rest)
end

mutual
/-- All question references of the chapters below a node, in traversal order
(`collectQuestions` of `getQuestionsForSelection`). -/
def collectNode : Node → List Nat
  | .chapter _ qs _ => qs
  | .branch _ _ cs _ => collectChildren cs

def collectChildren : NodeMap → List Nat
  | .nil => []
  | .cons _ n rest => collectNode n ++ collectChildren rest
end

mutual
/-- The full stats invariant: every chapter's stats are the counts over its
question list and every branch's stats are the element-wise sum of its
children's stats. -/
def statsOkNode (a : List Question) : Node → Bool
  | .chapter _ qs s => decide (s = chapterCounts a qs)
  | .branch _ _ cs s => decide (s = sumStats cs) && statsOkChildren a cs

def statsOkChildren (a : List Question) : NodeMap → Bool
  | .nil => true
  | .cons _ n rest => statsOkNode a n && statsOkChildren a rest
end

mutual
/-- The invariant exactly as claimed: every branch node's stats equal the
element-wise sum of its children's stats, and every chapter node's
`stats.total` equals the length of its question list. -/
def claimInvNode : Node → Bool
  | .chapter _ qs s => decide (s.total = qs.length)
  | .branch _ _ cs s => decide (s = sumStats cs) && claimInvChildren cs

def claimInvChildren : NodeMap → Bool
  | .nil => true
  | .cons _ n rest => claimInvNode n && claimInvChildren rest
end

mutual
/-- Well-shapedness of the tree at depth `d` (0 = term … 3 = chapter):
branches appear strictly above depth 3 and chapters exactly at depth 3,
as `buildHierarchy` constructs them. -/
def shapeOkNode : Nat → Node → Bool
  | d, .chapter _ _ _ => decide (d = 3)
  | d, .branch _ _ cs _ => decide (d < 3) && shapeOkChildren (d + 1) cs

def shapeOkChildren : Nat → NodeMap → Bool
  | _, .nil => true
  | d, .cons _ n rest => shapeOkNode d n && shapeOkChildren d rest
end

mutual
/-- `updateInNode` (shared shape of `updateQuestionStatus` and
`toggleFavoriteStatus`): depth-first search for the first question with the
given id, returning the reference found. -/
def nodeFind (a : List Question) (qid : Nat) : Node → Option Nat
  | .chapter _ qs _ => qs.find? (fun i => refHasId a qid i)
  | .branch _ _ cs _ => childrenFind a qid cs

def childrenFind (a : List Question) (qid : Nat) : NodeMap → Option Nat
  | .nil => none
  | .cons _ n rest =>
      match nodeFind a qid n with
      | some j => some j
      | none => childrenFind a qid rest
end

/-- The `Object.values(this.hierarchy).forEach(term => updateInNode(term))`
loop: each top-level term is searched (no early exit across terms, but the
search inside a term stops at the first hit), and the found question object
is mutated by `f`. -/
def mutateFound (f : Question → Question) (qid : Nat) : NodeMap → List Question → List Question
  | .nil, a => a
  | .cons _ n rest, a =>
      match nodeFind a qid n with
      | some j => mutateFound f qid rest (listModify a j f)
      | none => mutateFound f qid rest a

/-- The state of a `HierarchyManager` (plus the question-object heap).
`arena` is the heap of question objects; `flatQuestions` and the tree hold
references (arena indices) into it, mirroring JavaScript object aliasing. -/
structure HM where
  arena : List Question
  flatQuestions : List Nat
  hierarchy : NodeMap
  currentFiles : List String
  progressCache : List ProgressRecord
  favoritesCache : List Nat

/-- A fresh `new HierarchyManager()`. -/
def HM.empty : HM := ⟨[], [], .nil, [], [], []⟩

/-- `Map.get` on the progress cache: the cache is the list of `set` calls,
a later `set` for the same id overwrites an earlier one. -/
def progressGet (cache : List ProgressRecord) (id : Nat) : Option ProgressRecord :=
  cache.reverse.find? (fun p => p.questionId == id)

/-- `Set.add` (no-op when already present). -/
def setAdd (s : List Nat) (x : Nat) : List Nat :=
  if s.contains x then s else s ++ [x]

/-- The `{...q, fileId, solved, correct, favorite}` decoration applied per
question in `loadMultipleFiles`. -/
def decorate (prog : List ProgressRecord) (favs : List Nat) (filename : String)
    (q : RawQuestion) : Question :=
  { id := q.id, question := q.question, options := q.options,
    correct_option_id := q.correct_option_id, explanation := q.explanation,
    term := q.term, subject := q.subject, lesson := q.lesson, chapter := q.chapter,
    fileId := filename,
    solved := (progressGet prog q.id).isSome,
    correct := match progressGet prog q.id with
               | some p => p.correct
               | none => false,
    favorite := favs.contains q.id }

/-- Fold one question (reference `i`, object `q`) into the tree
(`tree[term].children[subject].children[lesson].children[chapter].questions.push(q)`
with defaulting of missing taxonomy fields). -/
def insertQuestion (h : NodeMap) (i : Nat) (q : Question) : NodeMap :=
  let term := orDefault q.term "Uncategorized"
  let subject := orDefault q.subject "General"
  let lesson := orDefault q.lesson "General"
  let chapter := orDefault q.chapter "General"
  modifyAt term (.branch "term" term .nil ⟨0, 0, 0⟩)
    (withChildren (modifyAt subject (.branch "subject" subject .nil ⟨0, 0, 0⟩)
      (withChildren (modifyAt lesson (.branch "lesson" lesson .nil ⟨0, 0, 0⟩)
        (withChildren (modifyAt chapter (.chapter chapter [] ⟨0, 0, 0⟩)
          (pushChapter i))))))) h

/-- The `this.flatQuestions.forEach(...)` loop of `buildHierarchy`: each flat
question (its reference is its position) is folded into the tree in order. -/
def insertAll (h : NodeMap) (i : Nat) : List Question → NodeMap
  | [] => h
  | q :: qs => insertAll (insertQuestion h i q) (i + 1) qs

/-- `HierarchyManager.buildHierarchy`: rebuild the tree from the flat list
(which at this point is the arena in order), then `calculateStats`. -/
def buildHierarchy (arena : List Question) : NodeMap :=
  calcChildren arena (insertAll .nil 0 arena)

/-- `HierarchyManager.loadMultipleFiles`: reset `flatQuestions`,
`currentFiles` and `progressCache` (the favorites cache is NOT cleared in the
source), fill the caches from the persistence snapshots, decorate and collect
the questions of every well-shaped file (skipping invalid ones), and rebuild
the tree. -/
def loadMultipleFiles (st : HM) (filesData : List (String × FileData))
    (allProgress : List ProgressRecord) (allFavorites : List Nat) : HM :=
  let progressCache := allProgress
  let favoritesCache := allFavorites.foldl setAdd st.favoritesCache
  let step := fun (acc : List Question × List String) (fd : String × FileData) =>
    match fd.2 with
    | .arr qs => (acc.1 ++ qs.map (decorate progressCache favoritesCache fd.1), acc.2 ++ [fd.1])
    | .wrapped qs => (acc.1 ++ qs.map (decorate progressCache favoritesCache fd.1), acc.2 ++ [fd.1])
    | .invalid => acc
  let p := filesData.foldl step ([], [])
  { arena := p.1,
    flatQuestions := List.range p.1.length,
    hierarchy := buildHierarchy p.1,
    currentFiles := p.2,
    progressCache := progressCache,
    favoritesCache := favoritesCache }

/-- The walk cursor of `getQuestionsForSelection`: `current` is either a
node map (the hierarchy or a `children` object) or a chapter's questions
array. -/
inductive Cursor where
  | map (m : NodeMap)
  | arr (qs : List Nat)

/-- The `for (const key of path)` walk.  A missing key on a node map returns
`[]`; a (non-index) key on a questions array leaves `current[key]` undefined,
so the source returns the array itself.  A walk ending on a branch collects
all questions below it. -/
def walk : List String → Cursor → List Nat
  | [], .arr qs => qs
  | [], .map m => collectChildren m
  | _ :: _, .arr qs => qs
  | k :: rest, .map m =>
      match alookup m k with
      | some (.branch _ _ cs _) => walk rest (.map cs)
      | some (.chapter _ qs _) => walk rest (.arr qs)
      | none => []

/-- `HierarchyManager.getQuestionsForSelection`. -/
def getQuestionsForSelection (st : HM) (path : List String) : List Nat :=
  if path.isEmpty then st.flatQuestions else walk path (.map st.hierarchy)

/-- `HierarchyManager.getAllQuestions` returns `this.flatQuestions` itself. -/
def getAllQuestions (st : HM) : List Nat := st.flatQuestions

/-- The mutation applied by `updateQuestionStatus` to the found object. -/
def setSolved (c : Bool) (q : Question) : Question :=
  { q with solved := true, correct := c }

/-- The mutation applied by `toggleFavoriteStatus` to a found object. -/
def flipFav (q : Question) : Question :=
  { q with favorite := !q.favorite }

/-- `HierarchyManager.updateQuestionStatus`: mutate the first matching
question of the flat array, then the first matching question inside each
top-level term of the tree (the same objects, through references), then
`calculateStats`. -/
def updateQuestionStatus (st : HM) (qid : Nat) (c : Bool) : HM :=
  let a1 :=
    match st.flatQuestions.find? (fun i => refHasId st.arena qid i) with
    | some i => listModify st.arena i (setSolved c)
    | none => st.arena
  let a2 := mutateFound (setSolved c) qid st.hierarchy a1
  { st with arena := a2, hierarchy := calcChildren a2 st.hierarchy }

/-- `HierarchyManager.toggleFavoriteStatus`: flip the flag on the first
matching flat question (recording the resulting state as `newStatus`), flip
the flag on the first matching question inside each term of the tree (the
same object again, through a reference), update the favorites cache from
`newStatus`, and return it. -/
def toggleFavoriteStatus (st : HM) (qid : Nat) : HM × Bool :=
  let found := st.flatQuestions.find? (fun i => refHasId st.arena qid i)
  let p :=
    match found with
    | some i =>
        let a1 := listModify st.arena i flipFav
        (a1, qFavoriteB a1 i)
    | none => (st.arena, false)
  let a2 := mutateFound flipFav qid st.hierarchy p.1
  let favs := if p.2 then setAdd st.favoritesCache qid
              else st.favoritesCache.filter (fun x => x ≠ qid)
  ({ st with arena := a2, favoritesCache := favs }, p.2)

/-- `UIManager.groupQuestions`: group a question list by the taxonomy level
chosen by the current path length, re-defaulting missing fields, in
first-seen order. -/
def groupKeyFor (pathLen : Nat) (q : Question) : String :=
  if pathLen = 0 then orDefault q.term "Uncategorized"
  else if pathLen = 1 then orDefault q.subject "General"
  else if pathLen = 2 then orDefault q.lesson "General"
  else if pathLen = 3 then orDefault q.chapter "General"
  else "Questions"

def addToGroups (gs : List (String × List Nat)) (k : String) (i : Nat) :
    List (String × List Nat) :=
  match gs with
  | [] => [(k, [i])]
  | (k', l) :: rest => if k' = k then (k', l ++ [i]) :: rest else (k', l) :: addToGroups rest k i

def groupQuestions (a : List Question) (pathLen : Nat) (qs : List Nat) :
    List (String × List Nat) :=
  qs.foldl (fun gs i =>
    match a.get? i with
    | some q => addToGroups gs (groupKeyFor pathLen q) i
    | none => gs) []

/-- `MCQProApp.startQuiz` candidate resolution: scope `"all"` is the flat
list itself; a group label is resolved by strict equality of the raw
taxonomy fields against the label (no defaulting here). -/
def startQuizCandidates (st : HM) (selectedPath : List String) (source : String) : List Nat :=
  if source = "all" then st.flatQuestions
  else
    (getQuestionsForSelection st selectedPath).filter (fun i =>
      match st.arena.get? i with
      | some q =>
          decide (q.term = some source) || decide (q.subject = some source) ||
          decide (q.lesson = some source) || decide (q.chapter = some source)
      | none => false)

/-- Insert one element into an already "sorted" list, consuming one oracle
draw per comparator call; `true` embeds a non-positive comparator result
(keep the element in front). -/
def insertRand {α : Type} (x : α) : List α → List Bool → List α × List Bool
  | [], rs => ([x], rs)
  | y :: ys, [] => (x :: y :: ys, [])
  | y :: ys, r :: rs =>
      if r then (x :: y :: ys, rs)
      else
        let p := insertRand x ys rs
        (y :: p.1, p.2)

/-- `Array.prototype.sort(() => Math.random() - 0.5)` embedded as a
comparison-oracle-driven insertion sort: the permutation produced by an
inconsistent random comparator is implementation defined, so the comparator's
outcomes are an explicit input. -/
def sortRand {α : Type} : List α → List Bool → List α × List Bool
  | [], rs => ([], rs)
  | x :: xs, rs =>
      let p := sortRand xs rs
      insertRand x p.1 p.2

/-- The questions array handed to `QuizManager.start`: either
`this.flatQuestions` itself (scope `"all"`, an alias of the manager's array)
or a freshly `filter`ed copy. -/
inductive QuizSource where
  | all
  | copy (qs : List Nat)

/-- A `QuizManager` session: for the parts of the session the claims are
about, the sampled question objects (read-only during the quiz), the answer
map, the countdown and the active flag. -/
structure QuizState where
  questions : List Question
  answers : List (Nat × Nat)
  timeRemaining : Nat
  active : Bool
deriving Repr, DecidableEq

/-- `QuizManager.start`: refuse an empty candidate list; otherwise sort the
given array IN PLACE with the random comparator (mutating the manager's flat
array when it is the array that was passed), take `min(count || 20, length)`
questions, reset answers, set the timer.  `count = 0` and `time = 0` embed
falsy configuration values. -/
def quizStart (st : HM) (src : QuizSource) (count time : Nat) (rs : List Bool) :
    HM × Option QuizState :=
  let qs : List Nat := match src with | .all => st.flatQuestions | .copy l => l
  if qs.length = 0 then (st, none)
  else
    let c := if count = 0 then 20 else count
    let t := if time = 0 then 30 else time
    let sorted := (sortRand qs rs).1
    let sampled := (sorted.take (min c qs.length)).filterMap (st.arena.get? ·)
    let st' := match src with
      | .all => { st with flatQuestions := sorted }
      | .copy _ => st
    (st', some ⟨sampled, [], t * 60, true⟩)

/-- `Map.get` on the answer map (later `set` wins). -/
def answersGet (ans : List (Nat × Nat)) (id : Nat) : Option Nat :=
  (ans.reverse.find? (fun p => p.1 == id)).map (·.2)

/-- The scoring-and-emission loop of `QuizManager.submit`: for every sampled
question, compare the recorded answer (`undefined` when unanswered) with
`correct_option_id` by strict equality, count the correct ones, and emit one
`saveProgress` request carrying the given fileId. -/
def submitCore (file : Option String) (qs : List Question) (ans : List (Nat × Nat)) :
    Nat × List ProgressWrite :=
  qs.foldl (fun acc q =>
    let a := answersGet ans q.id
    let ok := decide (a = some q.correct_option_id)
    (acc.1 + (if ok then 1 else 0),
     acc.2 ++ [⟨q.id, file, ok, a⟩])) (0, [])

/-- `QuizManager.submit` reads the fileId of every write from
`this.app.hierarchyManager.currentFiles[0]`. -/
def quizSubmit (st : HM) (qz : QuizState) : Nat × List ProgressWrite :=
  submitCore (st.currentFiles.get? 0) qz.questions qz.answers

/-- `Math.round(x)` for the (non-negative) accuracy value: `⌊x + 1/2⌋`. -/
def jsMathRound (x : ℚ) : ℤ := ⌊x + 1 / 2⌋

/-- `QuizManager.showResults`: `Math.round((correct / this.questions.length) * 100)`. -/
def showResultsPct (questionCount correct : Nat) : ℤ :=
  jsMathRound ((correct : ℚ) / questionCount * 100)

theorem get?_listModify {α : Type} (l : List α) (n m : Nat) (f : α → α) :
    (listModify l n f).get? m = if m = n then (l.get? n).map f else l.get? m := by
  induction l generalizing n m with
  | nil => simp [listModify]
  | cons a as ih =>
    cases n with
    | zero =>
      cases m with
      | zero => simp [listModify]
      | succ m => simp [listModify]
    | succ n =>
      cases m with
      | zero => simp [listModify]
      | succ m =>
        simp only [listModify, List.get?]
        rw [ih]
        by_cases h : m = n
        · simp [h]
        · simp [h, Nat.succ_ne_succ]

theorem listModify_idem {α : Type} (l : List α) (n : Nat) (f : α → α)
    (hf : ∀ x, f (f x) = f x) :
    listModify (listModify l n f) n f = listModify l n f := by
  induction l generalizing n with
  | nil => simp [listModify]
  | cons a as ih =>
    cases n with
    | zero => simp [listModify, hf]
    | succ n => simp [listModify, ih]

theorem refHasId_iff (a : List Question) (qid i : Nat) :
    refHasId a qid i = true ↔ ∃ q, a.get? i = some q ∧ q.id = qid := by
  unfold refHasId
  cases h : a.get? i with
  | none => simp
  | some q => simp [beq_iff_eq]

theorem refHasId_listModify (a : List Question) (qid i j : Nat) (f : Question → Question)
    (hf : ∀ q, (f q).id = q.id) :
    refHasId (listModify a i f) qid j = refHasId a qid j := by
  unfold refHasId
  rw [get?_listModify]
  by_cases h : j = i
  · subst h
    cases hg : a.get? j with
    | none => simp
    | some q => simp [hf]
  · simp [h]

theorem countP_le_one_pos_unique {α : Type} {p : α → Bool} (l : List α)
    (h : l.countP p ≤ 1) (i j : Nat) (a b : α)
    (hi : l.get? i = some a) (hj : l.get? j = some b)
    (hpa : p a = true) (hpb : p b = true) : i = j := by
  induction l generalizing i j with
  | nil => simp at hi
  | cons x xs ih =>
    rw [List.countP_cons] at h
    cases i with
    | zero =>
      cases j with
      | zero => rfl
      | succ j =>
        simp only [List.get?] at hi hj
        cases hi
        simp only [hpa, if_pos] at h
        have hz : xs.countP p = 0 := by omega
        have := (List.countP_eq_zero.mp hz) b (List.get?_mem hj)
        simp [hpb] at this
    | succ i =>
      cases j with
      | zero =>
        simp only [List.get?] at hi hj
        cases hj
        simp only [hpb, if_pos] at h
        have hz : xs.countP p = 0 := by omega
        have := (List.countP_eq_zero.mp hz) a (List.get?_mem hi)
        simp [hpa] at this
      | succ j =>
        simp only [List.get?] at hi hj
        have : xs.countP p ≤ 1 := by omega
        exact congrArg Nat.succ (ih this i j hi hj)

mutual
theorem statsOk_calcNode (a : List Question) (n : Node) :
    statsOkNode a (calcNode a n) = true := by
  cases n with
  | chapter name qs s => simp [calcNode, statsOkNode]
  | branch ty name cs s =>
    simp only [calcNode, statsOkNode]
    simp [statsOk_calcChildren a cs]

theorem statsOk_calcChildren (a : List Question) (m : NodeMap) :
    statsOkChildren a (calcChildren a m) = true := by
  cases m with
  | nil => simp [calcChildren, statsOkChildren]
  | cons k n rest =>
    simp only [calcChildren, statsOkChildren]
    simp [statsOk_calcNode a n, statsOk_calcChildren a rest]
end

mutual
theorem calcNode_fix (a : List Question) (n : Node) (h : statsOkNode a n = true) :
    calcNode a n = n := by
  cases n with
  | chapter name qs s =>
    simp only [statsOkNode, decide_eq_true_eq] at h
    simp [calcNode, h]
  | branch ty name cs s =>
    simp only [statsOkNode, Bool.and_eq_true, decide_eq_true_eq] at h
    have hc := calcChildren_fix a cs h.2
    simp [calcNode, hc, h.1]

theorem calcChildren_fix (a : List Question) (m : NodeMap) (h : statsOkChildren a m = true) :
    calcChildren a m = m := by
  cases m with
  | nil => simp [calcChildren]
  | cons k n rest =>
    simp only [statsOkChildren, Bool.and_eq_true] at h
    simp [calcChildren, calcNode_fix a n h.1, calcChildren_fix a rest h.2]
end

mutual
theorem collect_calcNode (a : List Question) (n : Node) :
    collectNode (calcNode a n) = collectNode n := by
  cases n with
  | chapter name qs s => simp [calcNode, collectNode]
  | branch ty name cs s => simp [calcNode, collectNode, collect_calcChildren a cs]

theorem collect_calcChildren (a : List Question) (m : NodeMap) :
    collectChildren (calcChildren a m) = collectChildren m := by
  cases m with
  | nil => simp [calcChildren]
  | cons k n rest =>
    simp [calcChildren, collectChildren, collect_calcNode a n, collect_calcChildren a rest]
end

mutual
theorem claimInv_of_statsOkNode (a : List Question) (n : Node)
    (h : statsOkNode a n = true) : claimInvNode n = true := by
  cases n with
  | chapter name qs s =>
    simp only [statsOkNode, decide_eq_true_eq] at h
    simp [claimInvNode, h, chapterCounts]
  | branch ty name cs s =>
    simp only [statsOkNode, Bool.and_eq_true] at h
    simp only [claimInvNode, Bool.and_eq_true]
    exact ⟨by simp [h.1], claimInv_of_statsOkChildren a cs h.2⟩

theorem claimInv_of_statsOkChildren (a : List Question) (m : NodeMap)
    (h : statsOkChildren a m = true) : claimInvChildren m = true := by
  cases m with
  | nil => simp [claimInvChildren]
  | cons k n rest =>
    simp only [statsOkChildren, Bool.and_eq_true] at h
    simp only [claimInvChildren, Bool.and_eq_true]
    exact ⟨claimInv_of_statsOkNode a n h.1, claimInv_of_statsOkChildren a rest h.2⟩
end

mutual
theorem nodeFind_some (a : List Question) (qid : Nat) (n : Node) (j : Nat)
    (h : nodeFind a qid n = some j) : refHasId a qid j = true := by
  cases n with
  | chapter name qs s => exact List.find?_some h
  | branch ty name cs s => exact childrenFind_some a qid cs j h

theorem childrenFind_some (a : List Question) (qid : Nat) (m : NodeMap) (j : Nat)
    (h : childrenFind a qid m = some j) : refHasId a qid j = true := by
  cases m with
  | nil => simp [childrenFind] at h
  | cons k n rest =>
    simp only [childrenFind] at h
    cases hn : nodeFind a qid n with
    | some j' =>
      rw [hn] at h
      cases h
      exact nodeFind_some a qid n j hn
    | none =>
      rw [hn] at h
      exact childrenFind_some a qid rest j h
end

mutual
theorem nodeFind_none_global (a : List Question) (qid : Nat) (n : Node)
    (h : ∀ i, refHasId a qid i = false) : nodeFind a qid n = none := by
  cases n with
  | chapter name qs s =>
    simp only [nodeFind]
    rw [List.find?_eq_none]
    intro x _
    simp [h x]
  | branch ty name cs s => exact childrenFind_none_global a qid cs h

theorem childrenFind_none_global (a : List Question) (qid : Nat) (m : NodeMap)
    (h : ∀ i, refHasId a qid i = false) : childrenFind a qid m = none := by
  cases m with
  | nil => rfl
  | cons k n rest =>
    simp only [childrenFind]
    rw [nodeFind_none_global a qid n h]
    exact childrenFind_none_global a qid rest h
end

theorem mutateFound_noop (f : Question → Question) (qid : Nat) (m : NodeMap)
    (a : List Question)
    (h : ∀ j, refHasId a qid j = true → listModify a j f = a) :
    mutateFound f qid m a = a := by
  cases m with
  | nil => rfl
  | cons k n rest =>
    simp only [mutateFound]
    cases hn : nodeFind a qid n with
    | some j =>
      show mutateFound f qid rest (listModify a j f) = a
      rw [h j (nodeFind_some a qid n j hn)]
      exact mutateFound_noop f qid rest a h
    | none => exact mutateFound_noop f qid rest a h

theorem pushChapter_shape_refs (i : Nat) (n : Node) (h : shapeOkNode 3 n = true) :
    shapeOkNode 3 (pushChapter i n) = true ∧
    (collectNode (pushChapter i n) : Multiset Nat) = i ::ₘ (collectNode n : Multiset Nat) := by
  cases n with
  | chapter name qs s =>
    refine ⟨by simp [pushChapter, shapeOkNode], ?_⟩
    simp only [pushChapter, collectNode]
    rw [Multiset.coe_eq_coe.mpr (List.perm_append_singleton i qs), ← Multiset.cons_coe]
  | branch ty name cs s =>
    simp [shapeOkNode] at h

theorem modifyAt_shape_refs (d i : Nat) (k : String) (dflt : Node) (f : Node → Node)
    (m : NodeMap)
    (hds : shapeOkNode d (f dflt) = true)
    (hdr : (collectNode (f dflt) : Multiset Nat) = {i})
    (hfs : ∀ n, shapeOkNode d n = true → shapeOkNode d (f n) = true)
    (hfr : ∀ n, shapeOkNode d n = true →
      (collectNode (f n) : Multiset Nat) = i ::ₘ (collectNode n : Multiset Nat))
    (hm : shapeOkChildren d m = true) :
    shapeOkChildren d (modifyAt k dflt f m) = true ∧
    (collectChildren (modifyAt k dflt f m) : Multiset Nat)
      = i ::ₘ (collectChildren m : Multiset Nat) := by
  cases m with
  | nil =>
    refine ⟨?_, ?_⟩
    · simp [modifyAt, shapeOkChildren, hds]
    · simp only [modifyAt, collectChildren, List.append_nil]
      rw [hdr]
      rfl
  | cons k' n rest =>
    simp only [shapeOkChildren, Bool.and_eq_true] at hm
    simp only [modifyAt]
    by_cases hk : k' = k
    · simp only [hk, if_pos rfl]
      refine ⟨?_, ?_⟩
      · simp [shapeOkChildren, hfs n hm.1, hm.2]
      · simp only [collectChildren]
        rw [← Multiset.coe_add, ← Multiset.coe_add, hfr n hm.1, Multiset.cons_add]
    · simp only [hk, if_neg hk]
      have := modifyAt_shape_refs d i k dflt f rest hds hdr hfs hfr hm.2
      refine ⟨?_, ?_⟩
      · simp [shapeOkChildren, hm.1, this.1]
      · simp only [collectChildren]
        rw [← Multiset.coe_add, ← Multiset.coe_add, this.2, Multiset.add_cons]

theorem withChildren_shape_refs (d i : Nat) (g : NodeMap → NodeMap)
    (hg : ∀ m, shapeOkChildren (d + 1) m = true →
      shapeOkChildren (d + 1) (g m) = true ∧
      (collectChildren (g m) : Multiset Nat) = i ::ₘ (collectChildren m : Multiset Nat))
    (hd : d < 3) (n : Node) (hn : shapeOkNode d n = true) :
    shapeOkNode d (withChildren g n) = true ∧
    (collectNode (withChildren g n) : Multiset Nat) = i ::ₘ (collectNode n : Multiset Nat) := by
  cases n with
  | chapter name qs s =>
    simp only [shapeOkNode, decide_eq_true_eq] at hn
    omega
  | branch ty name cs s =>
    simp only [shapeOkNode, Bool.and_eq_true, decide_eq_true_eq] at hn
    have := hg cs hn.2
    refine ⟨?_, ?_⟩
    · simp [withChildren, shapeOkNode, hd, this.1]
    · simpa [withChildren, collectNode] using this.2

theorem insertQuestionAux_shape_refs (i : Nat) (T S L C : String) (h : NodeMap)
    (hh : shapeOkChildren 0 h = true) :
    shapeOkChildren 0
      (modifyAt T (.branch "term" T .nil ⟨0, 0, 0⟩)
        (withChildren (modifyAt S (.branch "subject" S .nil ⟨0, 0, 0⟩)
          (withChildren (modifyAt L (.branch "lesson" L .nil ⟨0, 0, 0⟩)
            (withChildren (modifyAt C (.chapter C [] ⟨0, 0, 0⟩)
              (pushChapter i))))))) h) = true ∧
    (collectChildren
      (modifyAt T (.branch "term" T .nil ⟨0, 0, 0⟩)
        (withChildren (modifyAt S (.branch "subject" S .nil ⟨0, 0, 0⟩)
          (withChildren (modifyAt L (.branch "lesson" L .nil ⟨0, 0, 0⟩)
            (withChildren (modifyAt C (.chapter C [] ⟨0, 0, 0⟩)
              (pushChapter i))))))) h) : Multiset Nat)
      = i ::ₘ (collectChildren h : Multiset Nat) := by
  have g3 : ∀ m, shapeOkChildren 3 m = true →
      shapeOkChildren 3 (modifyAt C (.chapter C [] ⟨0, 0, 0⟩) (pushChapter i) m) = true ∧
      (collectChildren (modifyAt C (.chapter C [] ⟨0, 0, 0⟩) (pushChapter i) m) : Multiset Nat)
        = i ::ₘ (collectChildren m : Multiset Nat) :=
    fun m hm => modifyAt_shape_refs 3 i C _ (pushChapter i) m
      (by simp [pushChapter, shapeOkNode])
      (by simp [pushChapter, collectNode])
      (fun n hn => (pushChapter_shape_refs i n hn).1)
      (fun n hn => (pushChapter_shape_refs i n hn).2)
      hm
  have f2 : ∀ n, shapeOkNode 2 n = true →
      shapeOkNode 2 (withChildren (modifyAt C (.chapter C [] ⟨0, 0, 0⟩) (pushChapter i)) n) = true ∧
      (collectNode (withChildren (modifyAt C (.chapter C [] ⟨0, 0, 0⟩) (pushChapter i)) n) : Multiset Nat)
        = i ::ₘ (collectNode n : Multiset Nat) :=
    fun n hn => withChildren_shape_refs 2 i _ g3 (by omega) n hn
  have g2 : ∀ m, shapeOkChildren 2 m = true →
      shapeOkChildren 2 (modifyAt L (.branch "lesson" L .nil ⟨0, 0, 0⟩)
        (withChildren (modifyAt C (.chapter C [] ⟨0, 0, 0⟩) (pushChapter i))) m) = true ∧
      (collectChildren (modifyAt L (.branch "lesson" L .nil ⟨0, 0, 0⟩)
        (withChildren (modifyAt C (.chapter C [] ⟨0, 0, 0⟩) (pushChapter i))) m) : Multiset Nat)
        = i ::ₘ (collectChildren m : Multiset Nat) :=
    fun m hm => modifyAt_shape_refs 2 i L _ _ m
      ((f2 _ (by simp [shapeOkNode, shapeOkChildren])).1)
      (by
        have := (f2 (.branch "lesson" L .nil ⟨0, 0, 0⟩) (by simp [shapeOkNode, shapeOkChildren])).2
        simpa [collectNode, collectChildren] using this)
      (fun n hn => (f2 n hn).1)
      (fun n hn => (f2 n hn).2)
      hm
  have f1 : ∀ n, shapeOkNode 1 n = true →
      shapeOkNode 1 (withChildren (modifyAt L (.branch "lesson" L .nil ⟨0, 0, 0⟩)
        (withChildren (modifyAt C (.chapter C [] ⟨0, 0, 0⟩) (pushChapter i)))) n) = true ∧
      (collectNode (withChildren (modifyAt L (.branch "lesson" L .nil ⟨0, 0, 0⟩)
        (withChildren (modifyAt C (.chapter C [] ⟨0, 0, 0⟩) (pushChapter i)))) n) : Multiset Nat)
        = i ::ₘ (collectNode n : Multiset Nat) :=
    fun n hn => withChildren_shape_refs 1 i _ g2 (by omega) n hn
  have g1 : ∀ m, shapeOkChildren 1 m = true →
      shapeOkChildren 1 (modifyAt S (.branch "subject" S .nil ⟨0, 0, 0⟩)
        (withChildren (modifyAt L (.branch "lesson" L .nil ⟨0, 0, 0⟩)
          (withChildren (modifyAt C (.chapter C [] ⟨0, 0, 0⟩) (pushChapter i))))) m) = true ∧
      (collectChildren (modifyAt S (.branch "subject" S .nil ⟨0, 0, 0⟩)
        (withChildren (modifyAt L (.branch "lesson" L .nil ⟨0, 0, 0⟩)
          (withChildren (modifyAt C (.chapter C [] ⟨0, 0, 0⟩) (pushChapter i))))) m) : Multiset Nat)
        = i ::ₘ (collectChildren m : Multiset Nat) :=
    fun m hm => modifyAt_shape_refs 1 i S _ _ m
      ((f1 _ (by simp [shapeOkNode, shapeOkChildren])).1)
      (by
        have := (f1 (.branch "subject" S .nil ⟨0, 0, 0⟩) (by simp [shapeOkNode, shapeOkChildren])).2
        simpa [collectNode, collectChildren] using this)
      (fun n hn => (f1 n hn).1)
      (fun n hn => (f1 n hn).2)
      hm
  have f0 : ∀ n, shapeOkNode 0 n = true →
      shapeOkNode 0 (withChildren (modifyAt S (.branch "subject" S .nil ⟨0, 0, 0⟩)
        (withChildren (modifyAt L (.branch "lesson" L .nil ⟨0, 0, 0⟩)
          (withChildren (modifyAt C (.chapter C [] ⟨0, 0, 0⟩) (pushChapter i)))))) n) = true ∧
      (collectNode (withChildren (modifyAt S (.branch "subject" S .nil ⟨0, 0, 0⟩)
        (withChildren (modifyAt L (.branch "lesson" L .nil ⟨0, 0, 0⟩)
          (withChildren (modifyAt C (.chapter C [] ⟨0, 0, 0⟩) (pushChapter i)))))) n) : Multiset Nat)
        = i ::ₘ (collectNode n : Multiset Nat) :=
    fun n hn => withChildren_shape_refs 0 i _ g1 (by omega) n hn
  exact modifyAt_shape_refs 0 i T _ _ h
    ((f0 _ (by simp [shapeOkNode, shapeOkChildren])).1)
    (by
      have := (f0 (.branch "term" T .nil ⟨0, 0, 0⟩) (by simp [shapeOkNode, shapeOkChildren])).2
      simpa [collectNode, collectChildren] using this)
    (fun n hn => (f0 n hn).1)
    (fun n hn => (f0 n hn).2)
    hh

theorem insertQuestion_shape_refs (h : NodeMap) (i : Nat) (q : Question)
    (hh : shapeOkChildren 0 h = true) :
    shapeOkChildren 0 (insertQuestion h i q) = true ∧
    (collectChildren (insertQuestion h i q) : Multiset Nat)
      = i ::ₘ (collectChildren h : Multiset Nat) :=
  insertQuestionAux_shape_refs i (orDefault q.term "Uncategorized")
    (orDefault q.subject "General") (orDefault q.lesson "General")
    (orDefault q.chapter "General") h hh

theorem insertAll_shape_refs (qs : List Question) (h : NodeMap) (i : Nat)
    (hh : shapeOkChildren 0 h = true) :
    shapeOkChildren 0 (insertAll h i qs) = true ∧
    (collectChildren (insertAll h i qs) : Multiset Nat)
      = (collectChildren h : Multiset Nat) + ↑(List.range' i qs.length) := by
  induction qs generalizing h i with
  | nil => exact ⟨hh, by simp [insertAll]⟩
  | cons q qs ih =>
    simp only [insertAll]
    have hq := insertQuestion_shape_refs h i q hh
    have hrest := ih (insertQuestion h i q) (i + 1) hq.1
    refine ⟨hrest.1, ?_⟩
    rw [hrest.2, hq.2, List.length_cons, List.range'_succ, ← Multiset.cons_coe,
      Multiset.cons_add, Multiset.add_cons]

theorem buildHierarchy_refs (arena : List Question) :
    (collectChildren (buildHierarchy arena) : Multiset Nat) = ↑(List.range arena.length) := by
  unfold buildHierarchy
  rw [collect_calcChildren]
  have := insertAll_shape_refs arena .nil 0 rfl
  rw [this.2]
  simp [List.range_eq_range', collectChildren]

theorem submitCore_go (file : Option String) (ans : List (Nat × Nat)) (qs : List Question)
    (c0 : Nat) (w0 : List ProgressWrite) :
    qs.foldl (fun acc q =>
      let a := answersGet ans q.id
      let ok := decide (a = some q.correct_option_id)
      (acc.1 + (if ok then 1 else 0), acc.2 ++ [⟨q.id, file, ok, a⟩])) (c0, w0) =
    (c0 + qs.countP (fun q => decide (answersGet ans q.id = some q.correct_option_id)),
     w0 ++ qs.map (fun q =>
       { questionId := q.id, fileId := file,
         correct := decide (answersGet ans q.id = some q.correct_option_id),
         selectedOption := answersGet ans q.id })) := by
  induction qs generalizing c0 w0 with
  | nil => simp
  | cons q qs ih =>
    simp only [List.foldl_cons]
    rw [ih]
    simp only [List.countP_cons, List.map_cons, Prod.mk.injEq]
    constructor
    · cases h : decide (answersGet ans q.id = some q.correct_option_id) <;> simp [h] <;> try omega
    · simp

theorem submitCore_eq (file : Option String) (qs : List Question) (ans : List (Nat × Nat)) :
    submitCore file qs ans =
      (qs.countP (fun q => decide (answersGet ans q.id = some q.correct_option_id)),
       qs.map (fun q =>
         { questionId := q.id, fileId := file,
           correct := decide (answersGet ans q.id = some q.correct_option_id),
           selectedOption := answersGet ans q.id })) := by
  unfold submitCore
  rw [submitCore_go]
  simp

theorem updateQuestionStatus_arena (st : HM) (qid : Nat) (c : Bool) :
    (updateQuestionStatus st qid c).arena =
      mutateFound (setSolved c) qid st.hierarchy
        (match st.flatQuestions.find? (fun i => refHasId st.arena qid i) with
         | some i => listModify st.arena i (setSolved c)
         | none => st.arena) := rfl

theorem updateQuestionStatus_hierarchy (st : HM) (qid : Nat) (c : Bool) :
    (updateQuestionStatus st qid c).hierarchy =
      calcChildren (updateQuestionStatus st qid c).arena st.hierarchy := rfl

theorem updateQuestionStatus_flat (st : HM) (qid : Nat) (c : Bool) :
    (updateQuestionStatus st qid c).flatQuestions = st.flatQuestions := rfl

/-- A small raw question used by the concrete scenarios. -/
def rawQ (n : Nat) (t s l c : Option String) : RawQuestion :=
  { id := n, question := "q", options := ["a", "b"], correct_option_id := 0,
    explanation := "e", term := t, subject := s, lesson := l, chapter := c }

/-- One fully-categorised question loaded from one file. -/
def stFull : HM := loadMultipleFiles HM.empty
  [("f", .arr [rawQ 1 (some "T") (some "S") (some "L") (some "C")])] [] []

/-- Two questions in the same chapter. -/
def stPair : HM := loadMultipleFiles HM.empty
  [("f", .arr [rawQ 1 (some "T") (some "S") (some "L") (some "C"),
               rawQ 2 (some "T") (some "S") (some "L") (some "C")])] [] []

/-- Two files, one question each (ids 1 and 2, terms "TA" and "TB"). -/
def stTwoFiles : HM := loadMultipleFiles HM.empty
  [("a", .arr [rawQ 1 (some "TA") (some "S") (some "L") (some "C")]),
   ("b", .arr [rawQ 2 (some "TB") (some "S") (some "L") (some "C")])] [] []

/-- A quiz session started on the "TB" scope of `stTwoFiles` (its single
sampled question comes from file "b"). -/
def quizTwoFiles : QuizState :=
  match (quizStart stTwoFiles (.copy (startQuizCandidates stTwoFiles [] "TB")) 5 5 []).2 with
  | some z => z
  | none => ⟨[], [], 0, false⟩

/-- One question whose `subject` field is missing. -/
def stMissingSubject : HM := loadMultipleFiles HM.empty
  [("f", .arr [rawQ 1 (some "T1") none (some "L") (some "C")])] [] []

/-- First ingestion: question 1 answered correctly and favorited. -/
def stFav : HM := loadMultipleFiles HM.empty
  [("f", .arr [rawQ 1 none none none none])]
  [{ questionId := 1, fileId := "f", correct := true, selectedOption := some 0 }] [1]

/-- C1: after any ingestion (`loadMultipleFiles`), any `updateQuestionStatus`
and any `toggleFavoriteStatus`, every branch node's stats equal the
element-wise sum of its children's stats and every chapter node's
`stats.total` equals the length of its question list.  The first two
operations end in a full `calculateStats`, which establishes the invariant
unconditionally; `toggleFavoriteStatus` leaves the tree's structure and
stats untouched (favorites are not part of stats), so it preserves the
invariant of the state it is applied to (which any reachable state
satisfies). -/
theorem claim_C1_stats_invariant (st : HM) (filesData : List (String × FileData))
    (allProgress : List ProgressRecord) (allFavorites : List Nat)
    (qid : Nat) (c : Bool)
    (hst : claimInvChildren st.hierarchy = true) :
    claimInvChildren (loadMultipleFiles st filesData allProgress allFavorites).hierarchy = true ∧
    claimInvChildren (updateQuestionStatus st qid c).hierarchy = true ∧
    claimInvChildren (toggleFavoriteStatus st qid).1.hierarchy = true := by
  refine ⟨?_, ?_, ?_⟩
  · have h1 : (loadMultipleFiles st filesData allProgress allFavorites).hierarchy
        = buildHierarchy (loadMultipleFiles st filesData allProgress allFavorites).arena := rfl
    rw [h1]
    unfold buildHierarchy
    exact claimInv_of_statsOkChildren _ _ (statsOk_calcChildren _ _)
  · rw [updateQuestionStatus_hierarchy]
    exact claimInv_of_statsOkChildren _ _ (statsOk_calcChildren _ _)
  · have h3 : (toggleFavoriteStatus st qid).1.hierarchy = st.hierarchy := rfl
    rw [h3]
    exact hst

theorem claim_C1_stats_invariant_witness :
    claimInvChildren (loadMultipleFiles stFull
      [("g", .arr [rawQ 2 none (some "S2") none none])] [] []).hierarchy = true ∧
    claimInvChildren (updateQuestionStatus stFull 1 true).hierarchy = true ∧
    claimInvChildren (toggleFavoriteStatus stFull 1).1.hierarchy = true :=
  claim_C1_stats_invariant stFull [("g", .arr [rawQ 2 none (some "S2") none none])] [] []
    1 true (by decide)

/-- C10: after any ingestion, the multiset of question references stored in
the chapter lists of the tree equals the multiset of references of the flat
index: every question in a chapter's list is the identical object (the same
arena cell, i.e. the same JavaScript reference) as the corresponding flat
entry, and each flat entry occurs in the tree exactly once.  Consequently a
mutation performed through the flat index and one performed through the tree
for the same question touch the same arena cell twice. -/
theorem claim_C10_tree_flat_aliasing (st : HM) (filesData : List (String × FileData))
    (allProgress : List ProgressRecord) (allFavorites : List Nat) :
    (collectChildren (loadMultipleFiles st filesData allProgress allFavorites).hierarchy : Multiset Nat)
      = ↑(loadMultipleFiles st filesData allProgress allFavorites).flatQuestions := by
  have h1 : (loadMultipleFiles st filesData allProgress allFavorites).hierarchy
      = buildHierarchy (loadMultipleFiles st filesData allProgress allFavorites).arena := rfl
  have h2 : (loadMultipleFiles st filesData allProgress allFavorites).flatQuestions
      = List.range (loadMultipleFiles st filesData allProgress allFavorites).arena.length := rfl
  rw [h1, h2, buildHierarchy_refs]

/-- C2 (code bug at the failing input): on the one-question state,
`toggleFavoriteStatus 1` returns `true` and puts 1 into the favorites set,
yet the question's `favorite` flag — observed through the flat index, which
aliases the tree — is still `false`: the flat-array pass and the tree pass
flip the same aliased object twice, cancelling each other. -/
theorem claim_C2_toggle_double_flip :
    (toggleFavoriteStatus stFull 1).2 = true ∧
    (toggleFavoriteStatus stFull 1).1.favoritesCache.contains 1 = true ∧
    stFull.arena.map (fun q => q.favorite) = [false] ∧
    (toggleFavoriteStatus stFull 1).1.arena.map (fun q => q.favorite) = [false] := by
  decide

/-- C3 (code bug at the failing input): the ingested question's missing
`subject` stays `none` (no placeholder is written into the stored question);
grouping under path `["T1"]` labels it "General", but `startQuiz`'s
quiz-scope resolution compares the raw field against the label, so the quiz
scope "General" resolves to no questions at all. -/
theorem claim_C3_defaulting_not_at_ingestion :
    stMissingSubject.arena.map (fun q => q.subject) = [none] ∧
    groupQuestions stMissingSubject.arena 1
      (getQuestionsForSelection stMissingSubject ["T1"]) = [("General", [0])] ∧
    startQuizCandidates stMissingSubject ["T1"] "General" = [] := by
  decide

/-- C5 (code bug at the failing input): `QuizManager.start` sorts the array
it receives in place; with the "all" scope that array is `flatQuestions`
itself, so starting a quiz between two `getQuestionsForSelection []` calls
changes the order of the returned questions (comparator oracle `[false]`
swaps the two elements). -/
theorem claim_C5_query_changed_by_quizStart :
    (getQuestionsForSelection stPair []).map (fun i => stPair.arena.get? i) ≠
    (getQuestionsForSelection (quizStart stPair .all 20 30 [false]).1 []).map
      (fun i => (quizStart stPair .all 20 30 [false]).1.arena.get? i) := by
  decide

/-- C6 (code bug at the failing input): re-ingesting with an empty favorites
snapshot still reports the question as favorite (the favorites cache is
never cleared by `loadMultipleFiles`), while `solved`/`correct` are indeed
recomputed from the progress snapshot of the second call alone (they drop
back to `false` although the first call had a correct answer recorded). -/
theorem claim_C6_favorites_merged_not_recomputed :
    (loadMultipleFiles stFav [("f", .arr [rawQ 1 none none none none])] [] []).arena.map
      (fun q => q.favorite) = [true] ∧
    (loadMultipleFiles stFav [("f", .arr [rawQ 1 none none none none])] [] []).arena.map
      (fun q => (q.solved, q.correct)) = [(false, false)] ∧
    stFav.arena.map (fun q => (q.solved, q.correct, q.favorite)) = [(true, true, true)] := by
  decide

/-- C4 (amended): on submission exactly one progress-write request is emitted
per sampled question, in order, with `questionId` the question's id,
`correct` the strict-equality comparison of the recorded answer against
`correct_option_id`, and `selectedOption` the recorded answer (`none` when
unanswered) — but `fileId` is `currentFiles[0]`, the first loaded file, not
the question's own `fileId` (the two coincide only when a single file is
loaded). -/
theorem claim_C4_submit_one_write_per_question (st : HM) (qz : QuizState) :
    (quizSubmit st qz).2 = qz.questions.map (fun q =>
      { questionId := q.id, fileId := st.currentFiles.get? 0,
        correct := decide (answersGet qz.answers q.id = some q.correct_option_id),
        selectedOption := answersGet qz.answers q.id }) := by
  show (submitCore (st.currentFiles.get? 0) qz.questions qz.answers).2 = _
  rw [submitCore_eq]

/-- C4 (counterexample): the question sampled by `quizTwoFiles` was loaded
from file "b", but the write emitted for it carries fileId "a"
(= `currentFiles[0]`), contradicting the claim that the write carries the
question's own `fileId`. -/
theorem claim_C4_counterexample :
    (quizSubmit stTwoFiles quizTwoFiles).2.map (fun w => w.fileId) = [some "a"] ∧
    quizTwoFiles.questions.map (fun q => some q.fileId) = [some "b"] ∧
    (quizSubmit stTwoFiles quizTwoFiles).2.map (fun w => w.fileId)
      ≠ quizTwoFiles.questions.map (fun q => some q.fileId) := by
  decide

/-- C7 (counterexample): extending the full chapter path of `stFull` by an
extra key returns the chapter's non-empty question list, not the empty
sequence, contradicting the claim for paths that extend beyond a chapter. -/
theorem claim_C7_counterexample :
    getQuestionsForSelection stFull ["T", "S", "L", "C", "x"] = [0] ∧
    ([0] : List Nat) ≠ [] := by
  decide

/-- C7 (amended): a key missing while the walk is at a node map (the
hierarchy root or any `children` object) yields the empty sequence — the
embedded query is a total function, so it never throws; but once the walk
has reached a chapter's questions array, any remaining (non-index) keys
leave `current[key]` undefined and the source returns that array itself,
not the empty sequence. -/
theorem claim_C7_missing_key_amended (st : HM) (k : String) (rest : List String)
    (m : NodeMap) (qs : List Nat)
    (hmiss : (alookup st.hierarchy k).isNone = true) :
    getQuestionsForSelection st (k :: rest) = [] ∧
    ((alookup m k).isNone = true → walk (k :: rest) (Cursor.map m) = []) ∧
    walk (k :: rest) (Cursor.arr qs) = qs := by
  rw [Option.isNone_iff_eq_none] at hmiss
  refine ⟨?_, ?_, ?_⟩
  · simp [getQuestionsForSelection, walk, hmiss]
  · intro h
    rw [Option.isNone_iff_eq_none] at h
    simp [walk, h]
  · rfl

theorem claim_C7_missing_key_amended_witness :
    getQuestionsForSelection stFull ["Nope"] = [] ∧
    ((alookup NodeMap.nil "Nope").isNone = true → walk ["Nope"] (Cursor.map NodeMap.nil) = []) ∧
    walk ["Nope"] (Cursor.arr [5]) = [5] :=
  claim_C7_missing_key_amended stFull "Nope" [] NodeMap.nil [5] (by decide)

/-- C8: the submission score is exactly the number of sampled questions
whose recorded answer equals their `correct_option_id` (so an unanswered
question — whose recorded answer is `none` — can never be counted correct:
the count is bounded by the number of answered questions), and the reported
accuracy is `round(correct / total * 100)` where `total` is the number of
sampled questions; e.g. 2 correct of 3 yields 67. -/
theorem claim_C8_scoring (st : HM) (qz : QuizState) :
    (quizSubmit st qz).1 = qz.questions.countP
        (fun q => decide (answersGet qz.answers q.id = some q.correct_option_id)) ∧
    (quizSubmit st qz).1 ≤ qz.questions.countP
        (fun q => (answersGet qz.answers q.id).isSome) ∧
    showResultsPct qz.questions.length (quizSubmit st qz).1
      = round (((quizSubmit st qz).1 : ℚ) / (qz.questions.length : ℚ) * 100) ∧
    showResultsPct 3 2 = 67 := by
  have h1 : (quizSubmit st qz).1 = qz.questions.countP
      (fun q => decide (answersGet qz.answers q.id = some q.correct_option_id)) := by
    show (submitCore (st.currentFiles.get? 0) qz.questions qz.answers).1 = _
    rw [submitCore_eq]
  refine ⟨h1, ?_, ?_, ?_⟩
  · rw [h1]
    apply List.countP_mono_left
    intro q _ hq
    simp only [decide_eq_true_eq] at hq
    simp [hq]
  · simp only [showResultsPct, jsMathRound, round_eq]
  · show jsMathRound (((2 : Nat) : ℚ) / ((3 : Nat) : ℚ) * 100) = 67
    unfold jsMathRound
    rw [show ((2 : Nat) : ℚ) / ((3 : Nat) : ℚ) * 100 + 1 / 2 = 403 / 6 by norm_num]
    rw [show (67 : ℤ) = ⌊(403 / 6 : ℚ)⌋ from by norm_num [Int.floor_eq_iff]]

/-- C9: `updateQuestionStatus qid c` with `qid` present in the flat index
and in the tree (on a unique question object) mutates exactly that object —
setting `solved := true`, `correct := c` — and then recomputes every node's
stats bottom-up (the resulting tree satisfies the full stats invariant over
the updated questions); with `qid` absent from the loaded questions it is a
silent no-op: the embedding is a total function (nothing can be thrown) and
the state — every question and every node's stats — is returned unchanged. -/
theorem claim_C9_updateStatus (st : HM) (qid : Nat) (c : Bool) :
    ((∃ i ∈ st.flatQuestions, refHasId st.arena qid i = true) →
      (∃ j ∈ collectChildren st.hierarchy, refHasId st.arena qid j = true) →
      st.arena.countP (fun q => q.id == qid) ≤ 1 →
      ∃ i, refHasId st.arena qid i = true ∧
        (updateQuestionStatus st qid c).arena = listModify st.arena i (setSolved c) ∧
        ((updateQuestionStatus st qid c).arena.get? i).map (fun q => (q.solved, q.correct))
          = some (true, c) ∧
        statsOkChildren (updateQuestionStatus st qid c).arena
          (updateQuestionStatus st qid c).hierarchy = true ∧
        (updateQuestionStatus st qid c).flatQuestions = st.flatQuestions) ∧
    ((∀ q ∈ st.arena, q.id ≠ qid) →
      statsOkChildren st.arena st.hierarchy = true →
      updateQuestionStatus st qid c = st) := by
  constructor
  · intro hpres _ huniq
    obtain ⟨i0, hi0mem, hi0⟩ := hpres
    have hfindex : ∃ i, st.flatQuestions.find? (fun i => refHasId st.arena qid i) = some i := by
      cases hf : st.flatQuestions.find? (fun i => refHasId st.arena qid i) with
      | none =>
        have := List.find?_eq_none.mp hf i0 hi0mem
        simp [hi0] at this
      | some i => exact ⟨i, rfl⟩
    obtain ⟨i, hfind⟩ := hfindex
    have hri : refHasId st.arena qid i = true := List.find?_some hfind
    have huniq' : ∀ j, refHasId st.arena qid j = true → j = i := by
      intro j hj
      obtain ⟨qj, hgj, hidj⟩ := (refHasId_iff _ _ _).mp hj
      obtain ⟨qi, hgi, hidi⟩ := (refHasId_iff _ _ _).mp hri
      exact countP_le_one_pos_unique st.arena huniq j i qj qi hgj hgi
        (by simp [hidj]) (by simp [hidi])
    have ha : (updateQuestionStatus st qid c).arena = listModify st.arena i (setSolved c) := by
      rw [updateQuestionStatus_arena, hfind]
      apply mutateFound_noop
      intro j hj
      have hj' : refHasId st.arena qid j = true := by
        rwa [refHasId_listModify st.arena qid i j (setSolved c) (fun q => rfl)] at hj
      rw [huniq' j hj']
      exact listModify_idem st.arena i (setSolved c) (fun q => rfl)
    refine ⟨i, hri, ha, ?_, ?_, rfl⟩
    · rw [ha, get?_listModify, if_pos rfl]
      obtain ⟨qi, hgi, _⟩ := (refHasId_iff _ _ _).mp hri
      rw [hgi]
      simp [setSolved]
    · rw [updateQuestionStatus_hierarchy]
      exact statsOk_calcChildren _ _
  · intro habsent hstats
    have hrfalse : ∀ j, refHasId st.arena qid j = false := by
      intro j
      cases hg : st.arena.get? j with
      | none =>
        unfold refHasId
        rw [hg]
      | some q =>
        unfold refHasId
        rw [hg]
        simp only [beq_eq_false_iff_ne, ne_eq]
        exact habsent q (List.get?_mem hg)
    have hfind : st.flatQuestions.find? (fun i => refHasId st.arena qid i) = none := by
      rw [List.find?_eq_none]
      intro x _
      simp [hrfalse x]
    have ha : (updateQuestionStatus st qid c).arena = st.arena := by
      rw [updateQuestionStatus_arena, hfind]
      exact mutateFound_noop _ _ _ _ (fun j hj => absurd hj (by simp [hrfalse j]))
    have hh : (updateQuestionStatus st qid c).hierarchy = st.hierarchy := by
      rw [updateQuestionStatus_hierarchy, ha]
      exact calcChildren_fix st.arena st.hierarchy hstats
    have hview : updateQuestionStatus st qid c =
        { st with arena := (updateQuestionStatus st qid c).arena,
                  hierarchy := (updateQuestionStatus st qid c).hierarchy } := rfl
    rw [hview, ha, hh]

theorem claim_C9_updateStatus_witness :
    (∃ i, refHasId stFull.arena 1 i = true ∧
      (updateQuestionStatus stFull 1 true).arena = listModify stFull.arena i (setSolved true) ∧
      ((updateQuestionStatus stFull 1 true).arena.get? i).map (fun q => (q.solved, q.correct))
        = some (true, true) ∧
      statsOkChildren (updateQuestionStatus stFull 1 true).arena
        (updateQuestionStatus stFull 1 true).hierarchy = true ∧
      (updateQuestionStatus stFull 1 true).flatQuestions = stFull.flatQuestions) ∧
    updateQuestionStatus stFull 99 true = stFull :=
  ⟨(claim_C9_updateStatus stFull 1 true).1 (by decide) (by decide) (by decide),
   (claim_C9_updateStatus stFull 99 true).2 (by decide) (by decide)⟩
